import Mathlib

/-!
Verification of the session-merge core of the sensor-data repository
(`combine_csv.py`): timestamp-column detection, x/y/z axis-column
detection, session merging (inner join on timestamp), name
sanitization, and sensor-file discovery.

The Python code is shallowly embedded: a pandas `DataFrame` becomes a
list of column names plus a list of rows (lists of cell values);
regular-expression searches for the literal alternations used in the
source become substring tests; `pd.to_numeric(..., errors="coerce")`
is modelled as integer-literal parsing (non-parsing strings coerce to
`Value.null`, the embedding's NaN); `pd.merge(..., how="inner",
sort=True)` is modelled with pandas' key semantics, in which null join
keys match each other, output is grouped by key in ascending key
order, pairs within a key group are emitted left-row-major, and the
join raises unless the key label names exactly one column of each
operand after the renames (the `keyNotUnique` error path).
Filesystem access is out of scope: directory-listing functions take
the list of regular file names as an argument.
-/

namespace SensorData

/-! ## Character and string helpers -/

/-- Lowercase a character: ASCII `A`–`Z` (code points 65–90) map to
`a`–`z` (model of `str.lower` restricted to the ASCII inputs that
occur here, matching core `Char.toLower`). -/
def lowerChar (c : Char) : Char :=
  if 65 ≤ c.toNat ∧ c.toNat ≤ 90 then Char.ofNat (c.toNat + 32) else c

/-- Lowercase every character of a string. -/
def lowerStr (s : String) : String :=
  ⟨s.data.map lowerChar⟩

/-- Whitespace test matching the characters stripped by `str.strip()`
on the inputs that occur here: space, tab, newline, carriage
return. -/
def isWsChar (c : Char) : Bool :=
  c.toNat = 32 ∨ c.toNat = 9 ∨ c.toNat = 10 ∨ c.toNat = 13

/-- Does the character list `pat` occur as a contiguous sublist of
`hay`?  Model of `re.search` for a pattern with no metacharacters. -/
def charsHaveSub (hay pat : List Char) : Bool :=
  (List.range (hay.length + 1)).any (fun i => pat.isPrefixOf (hay.drop i))

/-- Does `pat` occur as a substring of `hay`? -/
def strHasSub (hay pat : String) : Bool :=
  charsHaveSub hay.data pat.data

/-- Does string `s` end with `suf`? Model of `str.endswith`. -/
def strEndsWith (s suf : String) : Bool :=
  suf.data.isSuffixOf s.data

/-- Lexicographic code-point order on character lists: the order used
by Python `sorted` on strings. -/
def charListLe : List Char → List Char → Bool
  | [], _ => true
  | _ :: _, [] => false
  | a :: as, b :: bs => if a = b then charListLe as bs else decide (a.toNat < b.toNat)

/-- Code-point order on strings. -/
def strLe (s t : String) : Bool :=
  charListLe s.data t.data

/-- Insert `v` into a list just before the first element `w` with
`le v w = true` (the insertion step of a stable insertion sort). -/
def insertLE {α : Type} (le : α → α → Bool) (v : α) : List α → List α
  | [] => [v]
  | w :: ws => if le v w then v :: w :: ws else w :: insertLE le v ws

/-- Stable insertion sort by the boolean relation `le`. -/
def sortLE {α : Type} (le : α → α → Bool) : List α → List α
  | [] => []
  | v :: vs => insertLE le v (sortLE le vs)

/-! ## Cell values -/

/-- A scalar cell of a parsed CSV: a numeric value (timestamps in the
claims are integers, so numerics are modelled as `Int`), a text value,
or the null / missing marker (pandas NaN). -/
inductive Value where
  | num (n : Int)
  | str (s : String)
  | null
deriving DecidableEq

/-- Numeric value of a digit list, most significant first. -/
def digitsToNat (cs : List Char) : Nat :=
  cs.foldl (fun n c => 10 * n + (c.toNat - 48)) 0

/-- Parse an optionally negated integer literal, the fragment of
`pd.to_numeric` string parsing needed for integer timestamps. -/
def parseIntChars : List Char → Option Int
  | [] => none
  | '-' :: rest =>
    if rest ≠ [] ∧ rest.all Char.isDigit then some (-(digitsToNat rest : Int)) else none
  | cs =>
    if cs.all Char.isDigit then some ((digitsToNat cs : Int)) else none

/-- Model of `pd.to_numeric(col, errors="coerce")` on one cell:
numbers pass through, parseable strings become numbers, everything
else becomes the null marker. -/
def toNumericVal : Value → Value
  | .num n => .num n
  | .null => .null
  | .str s =>
    match parseIntChars s.data with
    | some n => .num n
    | none => .null

/-- Sort order used for merge keys: numbers ascending, then strings in
code-point order, with null last (NaN sorts last). -/
def valLE : Value → Value → Bool
  | .num a, .num b => decide (a ≤ b)
  | .num _, _ => true
  | .str _, .num _ => false
  | .str a, .str b => charListLe a.data b.data
  | .str _, .null => true
  | .null, .null => true
  | .null, _ => false

/-! ## Tables -/

/-- A parsed CSV: ordered column names and rows of cells, each row
parallel to `cols`. -/
structure DataFrame where
  cols : List String
  rows : List (List Value)
deriving DecidableEq

/-- Rename every column named `old` to `new` (model of
`df.rename(columns={old: new})`, which relabels all matching
columns). -/
def renameCol (df : DataFrame) (old new : String) : DataFrame :=
  { df with cols := df.cols.map (fun c => if c = old then new else c) }

/-- Index of the first column named `n`. -/
def findIdxV (n : String) : List String → Option Nat
  | [] => none
  | c :: cs => if c = n then some 0 else (findIdxV n cs).map (· + 1)

/-- Resolve each requested name to its first column index; `none` if
any name is absent. -/
def idxsFor (names cols : List String) : Option (List Nat) :=
  match names with
  | [] => some []
  | n :: ns =>
    match findIdxV n cols, idxsFor ns cols with
    | some i, some is => some (i :: is)
    | _, _ => none

/-- Model of `df[[n₁, …, nₖ]]`: project every row onto the named
columns, in the requested order. -/
def selectRows (df : DataFrame) (names : List String) : Option (List (List Value)) :=
  (idxsFor names df.cols).map
    (fun idxs => df.rows.map (fun r => idxs.map (fun i => r.getD i Value.null)))

/-! ## Timestamp-column detection (`choose_timestamp_column`) -/

/-- The priority-ordered timestamp name patterns of the source:
`("time", "timestamp", "ts", "seconds", "sec", "elapsed")`. -/
def TS_PATTERNS : List String := ["time", "timestamp", "ts", "seconds", "sec", "elapsed"]

/-- `choose_timestamp_column`: for each pattern in priority order,
return the first column whose name contains the pattern
(case-insensitively); otherwise fall back to the first column.
Returns `none` exactly when the table has no columns (the Python
fallback `df.columns[0]` raises there). -/
def choose_timestamp_column (cols : List String) : Option String :=
  match TS_PATTERNS.findSome? (fun p => cols.find? (fun c => strHasSub (lowerStr c) p)) with
  | some c => some c
  | none => cols.head?

/-! ## Axis-column detection (`detect_xyz_columns`) -/

/-- Partial assignment of source columns to the x, y, z axes. -/
structure AxisMap where
  x? : Option String
  y? : Option String
  z? : Option String
deriving DecidableEq

/-- The error raised when fewer than three axes are detected,
carrying the available columns and the partial mapping (model of the
`ValueError` message of the source). -/
structure SchemaError where
  cols : List String
  found : AxisMap
deriving DecidableEq

/-- Is this an alphanumeric lowercase character (`[a-z0-9]`, code
points 97–122 and 48–57)?  Token characters of the axis-detection
split. -/
def isTokChar (c : Char) : Bool :=
  (97 ≤ c.toNat ∧ c.toNat ≤ 122) ∨ (48 ≤ c.toNat ∧ c.toNat ≤ 57)

/-- Accumulating splitter: collect maximal `isTokChar` runs, dropping
separator characters.  `acc` holds the current run reversed. -/
def tokSplit (acc : List Char) : List Char → List (List Char)
  | [] => if acc.isEmpty then [] else [acc.reverse]
  | c :: cs =>
    if isTokChar c then tokSplit (c :: acc) cs
    else if acc.isEmpty then tokSplit [] cs
    else acc.reverse :: tokSplit [] cs

/-- Tokens of a lowercased column name: maximal `[a-z0-9]` runs
(model of `re.split(r"[^a-z0-9]+", low)` with empties removed). -/
def tokensOf (low : String) : List String :=
  (tokSplit [] low.data).map (fun cs => ⟨cs⟩)

/-- Does the column name match the timestamp-like skip pattern
`time|timestamp|sec|elapsed` (case-insensitive)? -/
def skipTimestampLike (col : String) : Bool :=
  let low := lowerStr col
  strHasSub low "time" ∨ strHasSub low "timestamp" ∨ strHasSub low "sec" ∨ strHasSub low "elapsed"

/-- First pass of `detect_xyz_columns`: scan columns in order,
skipping timestamp-like names; a column whose token list contains the
axis letter fills that axis if still empty. -/
def axisTokenPass (cols : List String) : AxisMap :=
  cols.foldl
    (fun m col =>
      if skipTimestampLike col then m
      else
        let toks := tokensOf (lowerStr col)
        let m := if toks.contains "x" ∧ m.x?.isNone then { m with x? := some col } else m
        let m := if toks.contains "y" ∧ m.y?.isNone then { m with y? := some col } else m
        let m := if toks.contains "z" ∧ m.z?.isNone then { m with z? := some col } else m
        m)
    ⟨none, none, none⟩

/-- Trim leading and trailing whitespace from a character list. -/
def trimChars (cs : List Char) : List Char :=
  ((cs.dropWhile isWsChar).reverse.dropWhile isWsChar).reverse

/-- Fallback passes for one axis letter `l`: if the axis is unfilled,
take the first column whose lowercased name ends with `l` (suffix
pass); failing that, the last column whose trimmed lowercased name
equals `l` (the final loop of the source overwrites earlier exact
matches). -/
def fillAxis (cols : List String) (l : String) : Option String → Option String
  | some c => some c
  | none =>
    match cols.find? (fun c => strEndsWith (lowerStr c) l) with
    | some c => some c
    | none => (cols.filter (fun c => (⟨trimChars (lowerStr c).data⟩ : String) = l)).getLast?

/-- The axis mapping after all three passes of `detect_xyz_columns`. -/
def axisFinalMap (cols : List String) : AxisMap :=
  let t := axisTokenPass cols
  ⟨fillAxis cols "x" t.x?, fillAxis cols "y" t.y?, fillAxis cols "z" t.z?⟩

/-- `detect_xyz_columns`: return the three detected axis columns, or a
`SchemaError` naming the available columns and the partial mapping
when fewer than three axes were assigned. -/
def detect_xyz_columns (cols : List String) : Except SchemaError (String × String × String) :=
  match axisFinalMap cols with
  | ⟨some cx, some cy, some cz⟩ => .ok (cx, cy, cz)
  | m => .error ⟨cols, m⟩

/-! ## Session merging (`merge_session`) -/

/-- The canonical output column order `OUTPUT_COLS` of the source. -/
def OUTPUT_COLS : List String :=
  ["timestamp", "accel_x", "accel_y", "accel_z", "gyro_x", "gyro_y", "gyro_z"]

/-- Failures of `merge_session`: no columns to pick a timestamp from
(`IndexError` in the source), a failed column selection, a
schema-detection failure, or a join-key label that the axis rename
destroyed or duplicated, on which `pd.merge` raises (`KeyError` when
the label is gone, a merge `ValueError` when it is not unique). -/
inductive MergeErr where
  | emptyCols
  | badSelect
  | schema (e : SchemaError)
  | keyNotUnique
deriving DecidableEq

/-- Join key of a selected row: its first cell (the timestamp). -/
def rowKey (r : List Value) : Value :=
  r.getD 0 Value.null

/-- Apply timestamp coercion to the first cell of every row (the
selected tables carry the timestamp in column 0). -/
def coerceRows (rows : List (List Value)) : List (List Value) :=
  rows.map
    (fun r =>
      match r with
      | [] => []
      | v :: vs => toNumericVal v :: vs)

/-- Keys of a selected table. -/
def keysOf (rows : List (List Value)) : List Value :=
  rows.map rowKey

/-- First-occurrence deduplication of a key list. -/
def dedupFirst : List Value → List Value
  | [] => []
  | k :: ks => k :: (dedupFirst ks).filter (fun v => !decide (v = k))

/-- Inner join of two selected tables on their key column, sorted
ascending by key: pandas `pd.merge(a, g, on=ts, how="inner",
sort=True)` semantics.  Each distinct left key that also occurs on the
right contributes, in ascending key order, the cross product of its
left and right rows (left-row-major); null keys match null keys. -/
def merge_inner_sort (aRows gRows : List (List Value)) : List (List Value) :=
  (sortLE valLE ((dedupFirst (keysOf aRows)).filter
      (fun k => (keysOf gRows).any (fun v => decide (v = k))))).flatMap
    (fun k =>
      (aRows.filter (fun r => decide (rowKey r = k))).flatMap
        (fun ar =>
          (gRows.filter (fun r => decide (rowKey r = k))).map (fun gr => ar ++ gr.drop 1)))

/-- Rename every column label `old` to `new` in a label list (the
label part of `renameCol`). -/
def renameLabels (cols : List String) (old new : String) : List String :=
  cols.map (fun c => if c = old then new else c)

/-- How many columns of a label list carry the label `n`. -/
def countLabel (cols : List String) (n : String) : Nat :=
  (cols.filter (fun c => decide (c = n))).length

/-- The label sequence `df[[n₁, …, nₖ]]` produces: for each requested
label, every column of the frame carrying it, in frame order (pandas
expands duplicated labels). -/
def expandSel (cols names : List String) : List String :=
  names.flatMap (fun n => cols.filter (fun c => decide (c = n)))

/-- The axis rename `df.rename(columns={x: nx, y: ny, z: nz})` on one
label.  When the detected axis columns coincide, the later dict entry
wins, so `z` is tried first, then `y`, then `x`. -/
def axisRenamed (m : String × String × String) (nx ny nz c : String) : String :=
  if c = m.2.2 then nz else if c = m.2.1 then ny else if c = m.1 then nx else c

/-- How many columns of the selected, axis-renamed table still carry
the unified timestamp label: `pd.merge(..., on=cts)` requires this to
be exactly 1 in each operand and raises otherwise (`KeyError` when the
axis rename consumed the label, a merge `ValueError` when the earlier
timestamp rename duplicated it).  The `to_numeric` step cannot surface
these collisions first, because its exception is swallowed by the
source's bare `try/except`. -/
def keyCountAfter (cts : String) (m : String × String × String)
    (nx ny nz : String) (cols : List String) : Nat :=
  countLabel ((expandSel cols [cts, m.1, m.2.1, m.2.2]).map (axisRenamed m nx ny nz)) cts

/-- Column-level phase of `merge_session`: choose the timestamp
column of each table, unify its name (renaming to `"timestamp"` when
the two names differ), detect the axis columns on the renamed labels,
resolve the selection `[ts, x, y, z]` to column indices for each
table, and check that the join-key label survives the axis renames
uniquely in both tables — the precondition of `pd.merge`, which
otherwise raises out of `merge_session`.  Everything here depends
only on the column labels. -/
def prepPlan (acols gcols : List String) : Except MergeErr (String × List Nat × List Nat) :=
  match choose_timestamp_column acols, choose_timestamp_column gcols with
  | some tsA, some tsG =>
    let cts := if tsA = tsG then tsA else "timestamp"
    let acols2 := if cts = tsA then acols else renameLabels acols tsA cts
    let gcols2 := if cts = tsG then gcols else renameLabels gcols tsG cts
    match detect_xyz_columns acols2, detect_xyz_columns gcols2 with
    | .ok am, .ok gm =>
      match idxsFor [cts, am.1, am.2.1, am.2.2] acols2,
            idxsFor [cts, gm.1, gm.2.1, gm.2.2] gcols2 with
      | some ais, some gis =>
        if keyCountAfter cts am "accel_x" "accel_y" "accel_z" acols2 = 1 ∧
            keyCountAfter cts gm "gyro_x" "gyro_y" "gyro_z" gcols2 = 1 then
          .ok (cts, ais, gis)
        else .error .keyNotUnique
      | _, _ => .error .badSelect
    | .error e, _ => .error (.schema e)
    | _, .error e => .error (.schema e)
  | _, _ => .error .emptyCols

/-- Project every row onto the resolved column indices (the row part
of `selectRows`). -/
def projRows (idxs : List Nat) (rows : List (List Value)) : List (List Value) :=
  rows.map (fun r => idxs.map (fun i => r.getD i Value.null))

/-- Detection and selection phase of `merge_session`: choose the
timestamp column of each table, unify its name, detect the axis
columns, and project each table onto `[ts, x, y, z]`. -/
def prepTables (a g : DataFrame) :
    Except MergeErr (String × List (List Value) × List (List Value)) :=
  match prepPlan a.cols g.cols with
  | .ok (cts, ais, gis) => .ok (cts, projRows ais a.rows, projRows gis g.rows)
  | .error e => .error e

/-- Column labels of the joined table before renaming: the key column
first (pandas keeps left columns first), then the relabelled axis
columns. -/
def MERGED_REST : List String :=
  ["accel_x", "accel_y", "accel_z", "gyro_x", "gyro_y", "gyro_z"]

/-- Column labels of the joined table after the final rename of the
key column to `timestamp` (a no-op when it is already so named;
otherwise `df.rename` relabels every column named `cts`). -/
def mergedColsOf (cts : String) : List String :=
  if cts = "timestamp" then cts :: MERGED_REST
  else (cts :: MERGED_REST).map (fun c => if c = cts then "timestamp" else c)

/-- The canonical output columns actually present in the joined
table. -/
def outColsOf (cts : String) : List String :=
  OUTPUT_COLS.filter (fun c => (mergedColsOf cts).any (fun d => decide (d = c)))

/-- Join phase of `merge_session`: coerce the timestamp columns to
numeric, inner-join sorted by timestamp, relabel the axis columns to
`accel_*`/`gyro_*`, rename the key column to `timestamp`, and reorder
to the canonical columns actually present.  This phase is total
because `prepPlan` has already checked the one precondition on which
`pd.merge` raises — the join-key label surviving the renames uniquely
in both operands; under that check the unique key sits at index 0 of
each selected table. -/
def finishMerge (cts : String) (aSel gSel : List (List Value)) : Except MergeErr DataFrame :=
  match selectRows ⟨mergedColsOf cts, merge_inner_sort (coerceRows aSel) (coerceRows gSel)⟩
      (outColsOf cts) with
  | some rs => .ok ⟨outColsOf cts, rs⟩
  | none => .error .badSelect

instance {ε α : Type} [DecidableEq ε] [DecidableEq α] : DecidableEq (Except ε α)
  | .error e, .error f => decidable_of_iff (e = f) (by simp)
  | .ok u, .ok v => decidable_of_iff (u = v) (by simp)
  | .error _, .ok _ => isFalse (fun h => by cases h)
  | .ok _, .error _ => isFalse (fun h => by cases h)

/-- `merge_session`: merge one session's accelerometer and gyroscope
tables on their timestamp column. -/
def merge_session (a g : DataFrame) : Except MergeErr DataFrame :=
  match prepTables a g with
  | .ok (cts, aSel, gSel) => finishMerge cts aSel gSel
  | .error e => .error e

/-! ## Name sanitization (`sanitize_name`) -/

/-- Characters kept verbatim by sanitization: the class `[a-z0-9_-]`
(code points 97–122, 48–57, 95, 45). -/
def isSafeChar (c : Char) : Bool :=
  (97 ≤ c.toNat ∧ c.toNat ≤ 122) ∨ (48 ≤ c.toNat ∧ c.toNat ≤ 57) ∨
    c.toNat = 95 ∨ c.toNat = 45

/-- Replace every maximal run of characters outside `[a-z0-9_-]` with
a single underscore (model of `re.sub(r"[^a-z0-9_-]+", "_", s)`). -/
def replaceRuns : List Char → List Char
  | [] => []
  | [c] => if isSafeChar c then [c] else ['_']
  | c :: d :: cs =>
    if isSafeChar c then c :: replaceRuns (d :: cs)
    else if isSafeChar d then '_' :: replaceRuns (d :: cs)
    else replaceRuns (d :: cs)

/-- Collapse every run of underscores to a single underscore (model
of `re.sub(r"_+", "_", s)`). -/
def collapseUnd : List Char → List Char
  | [] => []
  | [c] => [c]
  | c :: d :: cs =>
    if c = '_' ∧ d = '_' then collapseUnd (d :: cs) else c :: collapseUnd (d :: cs)

/-- Remove the trailing run of characters satisfying `p`. -/
def dropTrailIf (p : Char → Bool) : List Char → List Char
  | [] => []
  | c :: cs =>
    match dropTrailIf p cs with
    | [] => if p c then [] else [c]
    | ds => c :: ds

/-- Strip leading and trailing underscores (model of `s.strip("_")`). -/
def stripUnd (cs : List Char) : List Char :=
  dropTrailIf (fun c => decide (c = '_')) (cs.dropWhile (fun c => decide (c = '_')))

/-- Strip leading and trailing whitespace (model of `name.strip()`). -/
def stripWs (cs : List Char) : List Char :=
  dropTrailIf isWsChar (cs.dropWhile isWsChar)

/-- `sanitize_name` as the source computes it: empty input maps to the
empty string; otherwise strip whitespace, lowercase, replace unsafe
runs with `_`, collapse underscore runs, and strip underscores. -/
def sanitize_name (name : String) : String :=
  if name.data.isEmpty then ""
  else ⟨stripUnd (collapseUnd (replaceRuns ((stripWs name.data).map lowerChar)))⟩

/-- The sanitization recipe as the specification words it: lowercase
the input, replace every maximal unsafe run with one underscore,
collapse repeated underscores, strip leading and trailing underscores
(no whitespace pre-strip). -/
def sanitizeSpec (name : String) : String :=
  ⟨stripUnd (collapseUnd (replaceRuns (name.data.map lowerChar)))⟩

/-- Does the list start with a character outside `[a-z0-9_-]`? -/
def headUnsafe : List Char → Bool
  | [] => false
  | d :: _ => !isSafeChar d

/-- Does the list end with a character outside `[a-z0-9_-]`? -/
def endsUnsafe : List Char → Bool
  | [] => false
  | [d] => !isSafeChar d
  | _ :: d :: cs => endsUnsafe (d :: cs)

/-- Does the list end with an underscore? -/
def endsUnd : List Char → Bool
  | [] => false
  | [d] => d = '_'
  | _ :: d :: cs => endsUnd (d :: cs)

/-- Does the list contain two adjacent underscores? -/
def hasDoubleUnd : List Char → Bool
  | c :: d :: cs => (c = '_' ∧ d = '_') ∨ hasDoubleUnd (d :: cs)
  | _ => false

/-! ## Sensor-file discovery (`find_sensor_files_in_session`) -/

/-- The accelerometer filename keywords of the source. -/
def ACCEL_KEYWORDS : List String := ["accelerometer", "accel"]

/-- The gyroscope filename keywords of the source. -/
def GYRO_KEYWORDS : List String := ["gyroscope", "gyro"]

/-- Does the lowercased filename end in `.csv` and contain one of the
keywords? -/
def sensorMatch (keywords : List String) (f : String) : Bool :=
  let low := lowerStr f
  strEndsWith low ".csv" ∧ keywords.any (fun k => strHasSub low k)

/-- One step of the `find_sensor_files_in_session` scan: an
accelerometer match overwrites the accel slot, then a gyroscope match
overwrites the gyro slot (the source applies both `if`s to the same
filename). -/
def sensorStep (acc : Option String × Option String) (f : String) :
    Option String × Option String :=
  let acc1 := if sensorMatch ACCEL_KEYWORDS f then (some f, acc.2) else acc
  if sensorMatch GYRO_KEYWORDS f then (acc1.1, some f) else acc1

/-- `find_sensor_files_in_session`, modelled on the list of regular
file names of the session directory (directory listing is I/O): scan
the names in Python `sorted` order and let each accelerometer match
overwrite the previous one, likewise for gyroscope matches; return
the final pair. -/
def find_sensor_files_in_session (files : List String) : Option String × Option String :=
  (sortLE strLe files).foldl sensorStep (none, none)

/-! ## General helper lemmas -/

theorem findIdxV_isSome_of_mem {n : String} {cols : List String} (h : n ∈ cols) :
    (findIdxV n cols).isSome := by
  induction cols with
  | nil => cases h
  | cons c cs ih =>
    by_cases hc : c = n
    · simp [findIdxV, hc]
    · rcases List.mem_cons.mp h with h1 | h1
      · exact absurd h1.symm hc
      · simp only [findIdxV, if_neg hc]
        rcases Option.isSome_iff_exists.mp (ih h1) with ⟨i, hi⟩
        simp [hi]

theorem idxsFor_isSome (cols : List String) {names : List String}
    (h : ∀ n ∈ names, n ∈ cols) :
    (idxsFor names cols).isSome := by
  induction names with
  | nil => simp [idxsFor]
  | cons n ns ih =>
    rcases Option.isSome_iff_exists.mp (findIdxV_isSome_of_mem (h n (by simp))) with ⟨i, hi⟩
    rcases Option.isSome_iff_exists.mp (ih fun m hm => h m (by simp [hm])) with ⟨is, his⟩
    simp [idxsFor, hi, his]

theorem getLast?_cons_or {α : Type} (a : α) (l : List α) :
    (a :: l).getLast? = Option.or l.getLast? (some a) := by
  induction l generalizing a with
  | nil => rfl
  | cons b m ih =>
    rw [List.getLast?_cons_cons, ih b]
    cases hm : m.getLast? <;> rfl

/-! ## C3: timestamp column literally named "timestamp" -/

/-- The pattern `"time"` outranks `"timestamp"`, so an earlier column
matching `"time"` wins even when a column is literally named
`timestamp`: counterexample to the claim as stated. -/
theorem C3_counterexample :
    "timestamp" ∈ ["datetime", "timestamp"] ∧
      choose_timestamp_column ["datetime", "timestamp"] ≠ some "timestamp" := by
  decide

theorem find_time_pattern (l1 l2 : List String)
    (h : ∀ c ∈ l1, strHasSub (lowerStr c) "time" = false) :
    (l1 ++ "timestamp" :: l2).find? (fun c => strHasSub (lowerStr c) "time") =
      some "timestamp" := by
  induction l1 with
  | nil => exact List.find?_cons_of_pos _ (by decide)
  | cons c cs ih =>
    rw [List.cons_append, List.find?_cons_of_neg _ (by simp [h c (by simp)])]
    exact ih fun d hd => h d (by simp [hd])

/-- C3, amended: `choose_timestamp_column` returns the first column
whose name contains `"time"` case-insensitively; in particular it
returns the column literally named `timestamp` whenever no earlier
column's name contains `"time"`. -/
theorem C3_timestamp_first_time_match (l1 l2 : List String)
    (h : ∀ c ∈ l1, strHasSub (lowerStr c) "time" = false) :
    choose_timestamp_column (l1 ++ "timestamp" :: l2) = some "timestamp" := by
  unfold choose_timestamp_column TS_PATTERNS
  rw [List.findSome?_cons, find_time_pattern l1 l2 h]

theorem C3_witness :
    choose_timestamp_column ["foo", "timestamp", "xval"] = some "timestamp" :=
  C3_timestamp_first_time_match ["foo"] ["xval"] (by decide)

/-! ## C8: totality of `choose_timestamp_column` -/

/-- `choose_timestamp_column` returns a member column for every
nonempty column list (the first-column fallback), and fails (`none`,
the Python `IndexError`) exactly on a table with zero columns. -/
theorem C8_choose_total_iff_nonempty :
    (∀ cols : List String, cols ≠ [] →
        ∃ c, choose_timestamp_column cols = some c ∧ c ∈ cols) ∧
      choose_timestamp_column [] = none := by
  constructor
  · intro cols hne
    unfold choose_timestamp_column
    cases hfs : TS_PATTERNS.findSome?
        (fun p => cols.find? (fun c => strHasSub (lowerStr c) p)) with
    | some c =>
      refine ⟨c, rfl, ?_⟩
      rcases List.exists_of_findSome?_eq_some hfs with ⟨p, _, hp⟩
      exact List.mem_of_find?_eq_some hp
    | none =>
      cases cols with
      | nil => exact absurd rfl hne
      | cons c cs => exact ⟨c, rfl, by simp⟩
  · decide

theorem C8_witness :
    ∃ c, choose_timestamp_column ["val"] = some c ∧ c ∈ ["val"] :=
  C8_choose_total_iff_nonempty.1 ["val"] (by decide)

/-! ## C4: detection of `ax`/`ay`/`az` columns -/

/-- `ax`, `ay`, `az` tokenize to single tokens `"ax"` etc., so the
exact-token pass assigns nothing for them; the mapping is nevertheless
produced — by the suffix pass.  Counterexample to the claim that the
assignment is made by the exact-token pass. -/
theorem C4_counterexample :
    axisTokenPass ["ax", "ay", "az"] = ⟨none, none, none⟩ ∧
      detect_xyz_columns ["ax", "ay", "az"] = .ok ("ax", "ay", "az") := by
  decide

/-- C4, amended: for tables whose columns yield no exact axis token
(in particular `ax, ay, az` with `time_x/y/z` absent) and whose first
column ending in each axis letter is `ax`/`ay`/`az` respectively,
`detect_xyz_columns` returns `{x: ax, y: ay, z: az}` — via the suffix
pass, not the exact-token pass. -/
theorem C4_ax_ay_az_suffix_pass (cols : List String)
    (ht : axisTokenPass cols = ⟨none, none, none⟩)
    (hx : cols.find? (fun c => strEndsWith (lowerStr c) "x") = some "ax")
    (hy : cols.find? (fun c => strEndsWith (lowerStr c) "y") = some "ay")
    (hz : cols.find? (fun c => strEndsWith (lowerStr c) "z") = some "az") :
    detect_xyz_columns cols = .ok ("ax", "ay", "az") := by
  unfold detect_xyz_columns axisFinalMap
  rw [ht]
  simp [fillAxis, hx, hy, hz]

theorem C4_witness :
    detect_xyz_columns ["ax", "ay", "az"] = .ok ("ax", "ay", "az") :=
  C4_ax_ay_az_suffix_pass ["ax", "ay", "az"] (by decide) (by decide) (by decide) (by decide)

/-! ## C5: fewer than three axes is a `SchemaError` -/

/-- If after the token, suffix, and exact passes some axis is still
unassigned, `detect_xyz_columns` fails with a `SchemaError` carrying
the available columns and the partial mapping. -/
theorem C5_schema_error (cols : List String)
    (h : (axisFinalMap cols).x? = none ∨ (axisFinalMap cols).y? = none ∨
        (axisFinalMap cols).z? = none) :
    detect_xyz_columns cols = .error ⟨cols, axisFinalMap cols⟩ := by
  unfold detect_xyz_columns
  rcases hm : axisFinalMap cols with ⟨mx, my, mz⟩
  rw [hm] at h
  cases mx <;> cases my <;> cases mz <;> simp_all

theorem C5_witness :
    detect_xyz_columns ["ax", "ay"] = .error ⟨["ax", "ay"], axisFinalMap ["ax", "ay"]⟩ :=
  C5_schema_error ["ax", "ay"] (by decide)

/-! ## C10: last sorted match wins in sensor-file discovery -/

theorem sensorStep_fst (acc : Option String × Option String) (f : String) :
    (sensorStep acc f).1 =
      if sensorMatch ACCEL_KEYWORDS f then some f else acc.1 := by
  unfold sensorStep
  by_cases ha : sensorMatch ACCEL_KEYWORDS f <;>
    by_cases hg : sensorMatch GYRO_KEYWORDS f <;> simp [ha, hg]

theorem sensorStep_snd (acc : Option String × Option String) (f : String) :
    (sensorStep acc f).2 =
      if sensorMatch GYRO_KEYWORDS f then some f else acc.2 := by
  unfold sensorStep
  by_cases ha : sensorMatch ACCEL_KEYWORDS f <;>
    by_cases hg : sensorMatch GYRO_KEYWORDS f <;> simp [ha, hg]

theorem sensor_foldl (l : List String) (acc : Option String × Option String) :
    l.foldl sensorStep acc =
      (Option.or ((l.filter (sensorMatch ACCEL_KEYWORDS)).getLast?) acc.1,
       Option.or ((l.filter (sensorMatch GYRO_KEYWORDS)).getLast?) acc.2) := by
  induction l generalizing acc with
  | nil => simp
  | cons f fs ih =>
    rw [List.foldl_cons, ih]
    refine Prod.ext ?_ ?_ <;> simp only
    · by_cases ha : sensorMatch ACCEL_KEYWORDS f
      · rw [List.filter_cons_of_pos ha, getLast?_cons_or, Option.or_assoc,
          sensorStep_fst, if_pos ha]
        simp
      · rw [List.filter_cons_of_neg (by simp [ha]), sensorStep_fst, if_neg ha]
    · by_cases hg : sensorMatch GYRO_KEYWORDS f
      · rw [List.filter_cons_of_pos hg, getLast?_cons_or, Option.or_assoc,
          sensorStep_snd, if_pos hg]
        simp
      · rw [List.filter_cons_of_neg (by simp [hg]), sensorStep_snd, if_neg hg]

/-- For every directory listing, each sensor slot holds the matching
`.csv` filename that is last in sorted order (later matches overwrite
earlier ones); and a single filename matching both keyword sets is
returned as both the accelerometer and the gyroscope file, so such a
session is not treated as missing a file. -/
theorem C10_find_sensor_files :
    (∀ files : List String,
        find_sensor_files_in_session files =
          (((sortLE strLe files).filter (sensorMatch ACCEL_KEYWORDS)).getLast?,
           ((sortLE strLe files).filter (sensorMatch GYRO_KEYWORDS)).getLast?)) ∧
      ∀ f : String, sensorMatch ACCEL_KEYWORDS f = true →
        sensorMatch GYRO_KEYWORDS f = true →
        find_sensor_files_in_session [f] = (some f, some f) := by
  have hmain : ∀ files : List String,
      find_sensor_files_in_session files =
        (((sortLE strLe files).filter (sensorMatch ACCEL_KEYWORDS)).getLast?,
         ((sortLE strLe files).filter (sensorMatch GYRO_KEYWORDS)).getLast?) := by
    intro files
    unfold find_sensor_files_in_session
    rw [sensor_foldl]
    simp
  refine ⟨hmain, fun f ha hg => ?_⟩
  rw [hmain [f]]
  simp [sortLE, insertLE, List.filter_cons_of_pos, ha, hg]

theorem C10_witness :
    find_sensor_files_in_session ["accel_gyro.csv"] =
      (some "accel_gyro.csv", some "accel_gyro.csv") :=
  C10_find_sensor_files.2 "accel_gyro.csv" (by decide) (by decide)

/-! ## Merge infrastructure lemmas -/

theorem mem_insertLE {α : Type} {le : α → α → Bool} {x v : α} {l : List α} :
    x ∈ insertLE le v l ↔ x = v ∨ x ∈ l := by
  induction l with
  | nil => simp [insertLE]
  | cons w ws ih =>
    by_cases h : le v w
    · simp [insertLE, h]
    · simp only [insertLE, if_neg h, List.mem_cons, ih]
      tauto

theorem mem_sortLE {α : Type} {le : α → α → Bool} {x : α} {l : List α} :
    x ∈ sortLE le l ↔ x ∈ l := by
  induction l with
  | nil => simp [sortLE]
  | cons v vs ih => simp [sortLE, mem_insertLE, ih]

theorem mem_of_mem_dedupFirst {k : Value} {l : List Value} (h : k ∈ dedupFirst l) :
    k ∈ l := by
  induction l with
  | nil => cases h
  | cons a m ih =>
    rcases List.mem_cons.mp h with h1 | h1
    · simp [h1]
    · exact List.mem_cons_of_mem a (ih (List.mem_of_mem_filter h1))

theorem rowKey_append {ar x : List Value} (h : ar ≠ []) :
    rowKey (ar ++ x) = rowKey ar := by
  cases ar with
  | nil => exact absurd rfl h
  | cons v vs => rfl

/-- Every row of the inner join is a left row appended to the tail of
a right row sharing its key, and that key is a key of both inputs. -/
theorem merge_inner_sort_mem {aR gR : List (List Value)} {r : List Value}
    (hr : r ∈ merge_inner_sort aR gR) :
    ∃ k ar gr, k ∈ keysOf aR ∧ k ∈ keysOf gR ∧
      ar ∈ aR ∧ gr ∈ gR ∧ rowKey ar = k ∧ rowKey gr = k ∧ r = ar ++ gr.drop 1 := by
  unfold merge_inner_sort at hr
  rcases List.mem_flatMap.mp hr with ⟨k, hk, hin⟩
  rcases List.mem_flatMap.mp hin with ⟨ar, har, hmap⟩
  rcases List.mem_map.mp hmap with ⟨gr, hgr, hreq⟩
  have hk2 : k ∈ (dedupFirst (keysOf aR)).filter
      (fun k => (keysOf gR).any (fun v => decide (v = k))) := mem_sortLE.mp hk
  have hkg : k ∈ keysOf gR := by
    have := (List.mem_filter.mp hk2).2
    rcases List.any_eq_true.mp this with ⟨v, hv, hveq⟩
    exact (of_decide_eq_true hveq) ▸ hv
  have hka : k ∈ keysOf aR :=
    mem_of_mem_dedupFirst (List.mem_filter.mp hk2).1
  have har2 := List.mem_filter.mp har
  have hgr2 := List.mem_filter.mp hgr
  exact ⟨k, ar, gr, hka, hkg, har2.1, hgr2.1,
    of_decide_eq_true har2.2, of_decide_eq_true hgr2.2, hreq.symm⟩

/-- If the two coerced key lists share no value, the join is empty. -/
theorem merge_inner_sort_nil {aR gR : List (List Value)}
    (hd : ∀ k ∈ keysOf aR, k ∉ keysOf gR) :
    merge_inner_sort aR gR = [] := by
  unfold merge_inner_sort
  have hc : (dedupFirst (keysOf aR)).filter
      (fun k => (keysOf gR).any (fun v => decide (v = k))) = [] := by
    rw [List.filter_eq_nil_iff]
    intro k hk
    intro hany
    rcases List.any_eq_true.mp hany with ⟨v, hv, hveq⟩
    exact hd k (mem_of_mem_dedupFirst hk) ((of_decide_eq_true hveq) ▸ hv)
  rw [hc]
  rfl

theorem mergedColsOf_head (cts : String) :
    ∃ tail, mergedColsOf cts = "timestamp" :: tail := by
  unfold mergedColsOf
  by_cases h : cts = "timestamp"
  · exact ⟨MERGED_REST, by rw [if_pos h, h]⟩
  · exact ⟨_, by rw [if_neg h, List.map_cons, if_pos rfl]⟩

theorem outColsOf_head (cts : String) :
    ∃ tail, outColsOf cts = "timestamp" :: tail := by
  rcases mergedColsOf_head cts with ⟨mt, hmt⟩
  unfold outColsOf OUTPUT_COLS
  rw [List.filter_cons_of_pos (by rw [hmt]; simp)]
  exact ⟨_, rfl⟩

theorem mem_mergedColsOf_of_mem_outColsOf (cts : String) {n : String}
    (h : n ∈ outColsOf cts) :
    n ∈ mergedColsOf cts := by
  have := (List.mem_filter.mp h).2
  rcases List.any_eq_true.mp this with ⟨d, hd, hdeq⟩
  exact (of_decide_eq_true hdeq) ▸ hd

/-- `finishMerge` always succeeds, keeps one output row per joined
row, and preserves each row's timestamp key. -/
theorem finishMerge_spec (cts : String) (aSel gSel : List (List Value)) :
    ∃ rs, finishMerge cts aSel gSel = .ok ⟨outColsOf cts, rs⟩ ∧
      rs.map rowKey =
        (merge_inner_sort (coerceRows aSel) (coerceRows gSel)).map rowKey := by
  rcases mergedColsOf_head cts with ⟨mt, hmt⟩
  rcases outColsOf_head cts with ⟨ot, hot⟩
  have hsub : ∀ n ∈ ot, n ∈ mergedColsOf cts := by
    intro n hn
    exact mem_mergedColsOf_of_mem_outColsOf cts (by rw [hot]; simp [hn])
  rcases Option.isSome_iff_exists.mp
      (idxsFor_isSome (mergedColsOf cts) hsub) with ⟨is, his⟩
  rw [hmt] at his
  have hidx : idxsFor (outColsOf cts) (mergedColsOf cts) = some (0 :: is) := by
    rw [hot, hmt]
    simp [idxsFor, findIdxV, his]
  refine ⟨(merge_inner_sort (coerceRows aSel) (coerceRows gSel)).map
      (fun r => (0 :: is).map (fun i => r.getD i Value.null)), ?_, ?_⟩
  · unfold finishMerge selectRows
    rw [hidx]
    rfl
  · rw [List.map_map]
    apply List.map_congr_left
    intro r hr
    rfl

/-! ## C6: disjoint timestamp sets give an empty table, not an error -/

/-- Counterexample to C6 as stated: on tables with columns
`["timex","y","z"]`, timestamp and axis detection both succeed (the
suffix pass assigns the timestamp column `timex` to the x axis), the
timestamp sets {1} and {2} are disjoint, yet `merge_session` raises —
the axis rename relabels the join-key column to `accel_x`, so
`pd.merge(..., on="timex")` raises `KeyError` instead of returning an
empty table. -/
theorem C6_counterexample :
    choose_timestamp_column ["timex", "y", "z"] = some "timex" ∧
      detect_xyz_columns ["timex", "y", "z"] = .ok ("timex", "y", "z") ∧
      merge_session
        ⟨["timex", "y", "z"], [[.num 1, .num 10, .num 11]]⟩
        ⟨["timex", "y", "z"], [[.num 2, .num 40, .num 41]]⟩
        = .error .keyNotUnique := by
  decide

/-- C6, amended: if timestamp and axis detection succeed and the
unified timestamp label survives the renames as a unique column label
in both selected tables (the condition under which `pd.merge` does not
raise, checked by `prepTables` success), disjoint join keys give an
empty table rather than an error. -/
theorem C6_disjoint_empty (a g : DataFrame) (cts : String)
    (aSel gSel : List (List Value))
    (hp : prepTables a g = .ok (cts, aSel, gSel))
    (hd : ∀ k ∈ keysOf (coerceRows aSel), k ∉ keysOf (coerceRows gSel)) :
    ∃ df, merge_session a g = Except.ok df ∧ df.rows = [] := by
  rcases finishMerge_spec cts aSel gSel with ⟨rs, hfm, hkeys⟩
  have hnil := merge_inner_sort_nil hd
  rw [hnil] at hkeys
  have hrs : rs = [] := by
    have := List.map_eq_nil_iff.mp hkeys
    exact this
  refine ⟨⟨outColsOf cts, rs⟩, ?_, hrs⟩
  unfold merge_session
  rw [hp]
  exact hfm

theorem C6_witness :
    ∃ df, merge_session
        ⟨["timestamp", "x", "y", "z"], [[.num 1, .num 1, .num 1, .num 1]]⟩
        ⟨["timestamp", "x", "y", "z"], [[.num 2, .num 2, .num 2, .num 2]]⟩
        = Except.ok df ∧ df.rows = [] :=
  C6_disjoint_empty _ _ "timestamp"
    [[.num 1, .num 1, .num 1, .num 1]] [[.num 2, .num 2, .num 2, .num 2]]
    (by decide) (by decide)

/-! ## C2: coercion-failed timestamps and null join keys -/

/-- Two rows whose timestamps fail numeric coercion do join with each
other: pandas merge matches null (NaN) keys, so `merge_session`
produces a row with a null timestamp — counterexample to the claim
that coercion-failed rows never reach the output. -/
theorem C2_counterexample :
    merge_session
        ⟨["timestamp", "x", "y", "z"], [[.str "abc", .num 1, .num 1, .num 1]]⟩
        ⟨["timestamp", "x", "y", "z"], [[.str "xyz", .num 2, .num 2, .num 2]]⟩
      = .ok ⟨OUTPUT_COLS,
          [[.null, .num 1, .num 1, .num 1, .num 2, .num 2, .num 2]]⟩ := by
  decide

/-- C2, amended: null join keys match each other, so a row whose
timestamp fails coercion produces output exactly when the other table
also has a null key; whenever the gyroscope side has no null keys, no
output row has a null timestamp. -/
theorem C2_no_null_key_without_partner (a g : DataFrame) (cts : String)
    (aSel gSel : List (List Value)) (df : DataFrame)
    (hp : prepTables a g = .ok (cts, aSel, gSel))
    (hg : Value.null ∉ keysOf (coerceRows gSel))
    (hm : merge_session a g = .ok df) :
    ∀ r ∈ df.rows, rowKey r ≠ Value.null := by
  rcases finishMerge_spec cts aSel gSel with ⟨rs, hfm, hkeys⟩
  have hms : merge_session a g = finishMerge cts aSel gSel := by
    unfold merge_session
    rw [hp]
  rw [hms, hfm] at hm
  have hdf : df = ⟨outColsOf cts, rs⟩ := by
    injection hm with h
    exact h.symm
  intro r hr hnull
  have hrk : Value.null ∈ rs.map rowKey := by
    rw [hdf] at hr
    exact hnull ▸ List.mem_map_of_mem rowKey hr
  rw [hkeys] at hrk
  rcases List.mem_map.mp hrk with ⟨r0, hr0, hr0k⟩
  rcases merge_inner_sort_mem hr0 with ⟨k, ar, gr, _, hkg, _, _, hark, _, hreq⟩
  have hknn : k ≠ Value.null := fun hk => hg (hk ▸ hkg)
  have harne : ar ≠ [] := by
    intro hnil
    rw [hnil] at hark
    exact hknn hark.symm
  rw [hreq, rowKey_append harne, hark] at hr0k
  exact hknn hr0k

/-! ## C1 infrastructure: the join on keys [1,2,3] and [2,3,4] -/

theorem keysOf_eq (rs : List (List Value)) : keysOf rs = rs.map rowKey := rfl

theorem keysOf_coerceRows (rs : List (List Value)) :
    keysOf (coerceRows rs) = (keysOf rs).map toNumericVal := by
  unfold keysOf coerceRows
  rw [List.map_map, List.map_map]
  apply List.map_congr_left
  intro r hr
  cases r <;> rfl

theorem coerceRows_perm {rs1 rs2 : List (List Value)} (h : rs1.Perm rs2) :
    (coerceRows rs1).Perm (coerceRows rs2) :=
  h.map _

theorem perm_pair_cases {α : Type} {l : List α} {a b : α} (h : l.Perm [a, b]) :
    l = [a, b] ∨ l = [b, a] := by
  have hlen : l.length = 2 := h.length_eq
  cases l with
  | nil => simp at hlen
  | cons x t =>
    cases t with
    | nil => simp at hlen
    | cons y t2 =>
      cases t2 with
      | cons z t3 => simp at hlen
      | nil =>
        have hx : x ∈ [a, b] := h.subset (by simp)
        rcases List.mem_cons.mp hx with hxa | hxb
        · subst hxa
          have h2 : [y].Perm [b] := h.cons_inv
          exact Or.inl (by rw [List.perm_singleton.mp h2])
        · have hxb2 : x = b := by simpa using hxb
          have hswap : ([a, b] : List α).Perm [b, a] := List.Perm.swap b a []
          have h3 : [x, y].Perm [b, a] := h.trans hswap
          rw [hxb2] at h3 ⊢
          have h2 : [y].Perm [a] := h3.cons_inv
          exact Or.inr (by rw [List.perm_singleton.mp h2])

theorem map_rowKey_filter (rs : List (List Value)) (k : Value) :
    (rs.filter (fun r => decide (rowKey r = k))).map rowKey =
      (rs.map rowKey).filter (fun v => decide (v = k)) := by
  induction rs with
  | nil => rfl
  | cons r t ih =>
    by_cases h : rowKey r = k
    · rw [List.filter_cons_of_pos (by simp [h]), List.map_cons, List.map_cons,
        List.filter_cons_of_pos (by simp [h]), ih]
    · rw [List.filter_cons_of_neg (by simp [h]), List.map_cons,
        List.filter_cons_of_neg (by simp [h]), ih]

theorem dedupFirst_eq_self_of_nodup {l : List Value} (h : l.Nodup) : dedupFirst l = l := by
  induction l with
  | nil => rfl
  | cons a m ih =>
    rw [dedupFirst, ih (List.Nodup.of_cons h)]
    rw [List.filter_eq_self.mpr]
    intro v hv
    simp only [Bool.not_eq_eq_eq_not, Bool.not_true, decide_eq_false_iff_not]
    exact fun he => (List.nodup_cons.mp h).1 (he ▸ hv)

/-- When a key occurs exactly once in a table (its key list restricted
to `k` is `[k]`), the rows filtered on that key form a singleton. -/
theorem filter_key_singleton {rs : List (List Value)} (k : Value) {l3 : List Value}
    (hperm : (rs.map rowKey).Perm l3)
    (hfl : l3.filter (fun v => decide (v = k)) = [k]) :
    ∃ ar, rs.filter (fun r => decide (rowKey r = k)) = [ar] ∧ rowKey ar = k := by
  have h1 : (rs.filter (fun r => decide (rowKey r = k))).map rowKey = [k] := by
    rw [map_rowKey_filter]
    exact List.perm_singleton.mp ((hperm.filter _).trans (by rw [hfl]))
  cases hfl2 : rs.filter (fun r => decide (rowKey r = k)) with
  | nil => rw [hfl2] at h1; cases h1
  | cons x t =>
    rw [hfl2, List.map_cons] at h1
    have hx : rowKey x = k := (List.cons.injEq .. ▸ h1).1
    have ht : t.map rowKey = [] := (List.cons.injEq .. ▸ h1).2
    exact ⟨x, by rw [List.map_eq_nil_iff.mp ht], hx⟩

/-- The inner join of a table whose keys are a permutation of
`[1, 2, 3]` with one whose keys are a permutation of `[2, 3, 4]`
consists of exactly the two rows keyed 2 and 3, in that order, each
formed from the unique matching row of either side. -/
theorem merge_keys_123_234 {aR gR : List (List Value)}
    (ha : (aR.map rowKey).Perm [Value.num 1, Value.num 2, Value.num 3])
    (hg : (gR.map rowKey).Perm [Value.num 2, Value.num 3, Value.num 4]) :
    ∃ ar2 ar3 gr2 gr3,
      aR.filter (fun r => decide (rowKey r = Value.num 2)) = [ar2] ∧
      aR.filter (fun r => decide (rowKey r = Value.num 3)) = [ar3] ∧
      gR.filter (fun r => decide (rowKey r = Value.num 2)) = [gr2] ∧
      gR.filter (fun r => decide (rowKey r = Value.num 3)) = [gr3] ∧
      rowKey ar2 = Value.num 2 ∧ rowKey ar3 = Value.num 3 ∧
      merge_inner_sort aR gR = [ar2 ++ gr2.drop 1, ar3 ++ gr3.drop 1] := by
  obtain ⟨ar2, hfa2, hka2⟩ := filter_key_singleton (Value.num 2) ha (by decide)
  obtain ⟨ar3, hfa3, hka3⟩ := filter_key_singleton (Value.num 3) ha (by decide)
  obtain ⟨gr2, hfg2, hkg2⟩ := filter_key_singleton (Value.num 2) hg (by decide)
  obtain ⟨gr3, hfg3, hkg3⟩ := filter_key_singleton (Value.num 3) hg (by decide)
  have haK : (aR.map rowKey).Nodup := ha.nodup_iff.mpr (by decide)
  have hded : dedupFirst (aR.map rowKey) = aR.map rowKey :=
    dedupFirst_eq_self_of_nodup haK
  have hmem_g : ∀ k : Value,
      ((keysOf gR).any (fun v => decide (v = k)) = true) ↔ k ∈ gR.map rowKey := by
    intro k
    rw [keysOf_eq]
    constructor
    · intro hany
      rcases List.any_eq_true.mp hany with ⟨v, hv, hveq⟩
      exact (of_decide_eq_true hveq) ▸ hv
    · intro hk
      exact List.any_eq_true.mpr ⟨k, hk, by simp⟩
  have hp1 : ((keysOf gR).any (fun v => decide (v = Value.num 1))) = false := by
    rw [Bool.eq_false_iff]
    intro hany
    exact absurd (hg.mem_iff.mp ((hmem_g _).mp hany)) (by decide)
  have hp2 : ((keysOf gR).any (fun v => decide (v = Value.num 2))) = true :=
    (hmem_g _).mpr (hg.mem_iff.mpr (by decide))
  have hp3 : ((keysOf gR).any (fun v => decide (v = Value.num 3))) = true :=
    (hmem_g _).mpr (hg.mem_iff.mpr (by decide))
  have hcp : ((aR.map rowKey).filter
      (fun k => (keysOf gR).any (fun v => decide (v = k)))).Perm
      [Value.num 2, Value.num 3] := by
    refine (ha.filter _).trans ?_
    rw [List.filter_cons_of_neg (by simp [hp1]), List.filter_cons_of_pos (by simp [hp2]),
      List.filter_cons_of_pos (by simp [hp3]), List.filter_nil]
  have hsorted : sortLE valLE ((dedupFirst (keysOf aR)).filter
      (fun k => (keysOf gR).any (fun v => decide (v = k))))
      = [Value.num 2, Value.num 3] := by
    rw [keysOf_eq aR, hded]
    rcases perm_pair_cases hcp with hc | hc <;> rw [hc] <;> decide
  refine ⟨ar2, ar3, gr2, gr3, hfa2, hfa3, hfg2, hfg3, hka2, hka3, ?_⟩
  unfold merge_inner_sort
  rw [hsorted]
  simp [hfa2, hfa3, hfg2, hfg3]

/-- `prepTables` on tables with permuted rows succeeds with the same
timestamp label and row-permuted selections (the column-level plan
ignores the rows). -/
theorem prepTables_rows_perm {a g : DataFrame} {cts : String}
    {aSel gSel rows2 grows2 : List (List Value)}
    (hp : prepTables a g = .ok (cts, aSel, gSel))
    (hr2 : rows2.Perm a.rows) (hs2 : grows2.Perm g.rows) :
    ∃ aSel2 gSel2,
      prepTables ⟨a.cols, rows2⟩ ⟨g.cols, grows2⟩ = .ok (cts, aSel2, gSel2) ∧
        aSel2.Perm aSel ∧ gSel2.Perm gSel := by
  unfold prepTables at hp ⊢
  cases hpl : prepPlan a.cols g.cols with
  | error e =>
    rw [hpl] at hp
    cases hp
  | ok t =>
    obtain ⟨cts', ais, gis⟩ := t
    rw [hpl] at hp
    injection hp with h
    have h1 : cts' = cts := congrArg Prod.fst h
    have h2 : projRows ais a.rows = aSel := congrArg (fun p => p.2.1) h
    have h3 : projRows gis g.rows = gSel := congrArg (fun p => p.2.2) h
    refine ⟨projRows ais rows2, projRows gis grows2, ?_, ?_, ?_⟩
    · rw [h1]
    · rw [← h2]
      exact hr2.map _
    · rw [← h3]
      exact hs2.map _

/-! ## C1: merging timestamps [1,2,3] with [2,3,4] -/

/-- Counterexample to C1 as stated: tables with columns
`["timex","y","z"]` whose timestamp columns hold exactly 1, 2, 3 and
2, 3, 4.  Detection succeeds on both, but the suffix pass also
assigns the timestamp column to the x axis, the axis rename destroys
the join-key label, and `merge_session` raises (`pd.merge` gets a
missing `on` label) instead of returning the two rows keyed 2 and 3. -/
theorem C1_counterexample :
    choose_timestamp_column ["timex", "y", "z"] = some "timex" ∧
      detect_xyz_columns ["timex", "y", "z"] = .ok ("timex", "y", "z") ∧
      merge_session
        ⟨["timex", "y", "z"],
          [[.num 1, .num 10, .num 11], [.num 2, .num 20, .num 21],
           [.num 3, .num 30, .num 31]]⟩
        ⟨["timex", "y", "z"],
          [[.num 2, .num 40, .num 41], [.num 3, .num 50, .num 51],
           [.num 4, .num 60, .num 61]]⟩
        = .error .keyNotUnique := by
  decide

/-- C1, amended: for every accelerometer table whose (detected,
selected) timestamp column holds exactly the values 1, 2, 3 and every
gyroscope table whose timestamp column holds exactly 2, 3, 4, and on
which the unified timestamp label survives the renames as a unique
column label in both tables (the condition under which `pd.merge`
does not raise, encoded in `prepTables` success), `merge_session`
returns exactly the two rows keyed 2 and 3 in ascending timestamp
order, and the result is unchanged under any permutation of either
input's rows. -/
theorem C1_inner_join_123_234 (a g : DataFrame) (cts : String)
    (aSel gSel : List (List Value)) (df : DataFrame)
    (rows2 grows2 : List (List Value)) (df2 : DataFrame)
    (hp : prepTables a g = .ok (cts, aSel, gSel))
    (ha : (aSel.map rowKey).Perm [Value.num 1, Value.num 2, Value.num 3])
    (hg : (gSel.map rowKey).Perm [Value.num 2, Value.num 3, Value.num 4])
    (hm : merge_session a g = .ok df)
    (hr2 : rows2.Perm a.rows) (hs2 : grows2.Perm g.rows)
    (hm2 : merge_session ⟨a.cols, rows2⟩ ⟨g.cols, grows2⟩ = .ok df2) :
    df.rows.map rowKey = [Value.num 2, Value.num 3] ∧ df.rows.length = 2 ∧ df2 = df := by
  have hca : ((coerceRows aSel).map rowKey).Perm
      [Value.num 1, Value.num 2, Value.num 3] := by
    rw [← keysOf_eq, keysOf_coerceRows, keysOf_eq]
    simpa using ha.map toNumericVal
  have hcg : ((coerceRows gSel).map rowKey).Perm
      [Value.num 2, Value.num 3, Value.num 4] := by
    rw [← keysOf_eq, keysOf_coerceRows, keysOf_eq]
    simpa using hg.map toNumericVal
  obtain ⟨ar2, ar3, gr2, gr3, hfa2, hfa3, hfg2, hfg3, hka2, hka3, hmerge⟩ :=
    merge_keys_123_234 hca hcg
  rcases finishMerge_spec cts aSel gSel with ⟨rs, hfm, hkeys⟩
  have hms : merge_session a g = finishMerge cts aSel gSel := by
    unfold merge_session
    rw [hp]
  rw [hms, hfm] at hm
  have hdf : df = ⟨outColsOf cts, rs⟩ := by
    injection hm with h
    exact h.symm
  have har2ne : ar2 ≠ [] := by
    intro h0
    rw [h0] at hka2
    simp [rowKey] at hka2
  have har3ne : ar3 ≠ [] := by
    intro h0
    rw [h0] at hka3
    simp [rowKey] at hka3
  have hkeys2 : rs.map rowKey = [Value.num 2, Value.num 3] := by
    rw [hkeys, hmerge]
    simp [rowKey_append har2ne, rowKey_append har3ne, hka2, hka3]
  have hlen : rs.length = 2 := by
    have := congrArg List.length hkeys2
    simpa using this
  obtain ⟨aSel2, gSel2, hp2, hpa, hpg⟩ := prepTables_rows_perm hp hr2 hs2
  have hperm_a : (coerceRows aSel2).Perm (coerceRows aSel) := coerceRows_perm hpa
  have hperm_g : (coerceRows gSel2).Perm (coerceRows gSel) := coerceRows_perm hpg
  have hca2 : ((coerceRows aSel2).map rowKey).Perm
      [Value.num 1, Value.num 2, Value.num 3] := (hperm_a.map rowKey).trans hca
  have hcg2 : ((coerceRows gSel2).map rowKey).Perm
      [Value.num 2, Value.num 3, Value.num 4] := (hperm_g.map rowKey).trans hcg
  obtain ⟨br2, br3, dr2, dr3, hfb2, hfb3, hfd2, hfd3, _, _, hmerge2⟩ :=
    merge_keys_123_234 hca2 hcg2
  have heb2 : br2 = ar2 := by
    have hpf := (hperm_a.filter (fun r => decide (rowKey r = Value.num 2)))
    rw [hfb2, hfa2] at hpf
    exact (List.cons.injEq .. ▸ List.perm_singleton.mp hpf).1
  have heb3 : br3 = ar3 := by
    have hpf := (hperm_a.filter (fun r => decide (rowKey r = Value.num 3)))
    rw [hfb3, hfa3] at hpf
    exact (List.cons.injEq .. ▸ List.perm_singleton.mp hpf).1
  have hed2 : dr2 = gr2 := by
    have hpf := (hperm_g.filter (fun r => decide (rowKey r = Value.num 2)))
    rw [hfd2, hfg2] at hpf
    exact (List.cons.injEq .. ▸ List.perm_singleton.mp hpf).1
  have hed3 : dr3 = gr3 := by
    have hpf := (hperm_g.filter (fun r => decide (rowKey r = Value.num 3)))
    rw [hfd3, hfg3] at hpf
    exact (List.cons.injEq .. ▸ List.perm_singleton.mp hpf).1
  have hfin2 : finishMerge cts aSel2 gSel2 = finishMerge cts aSel gSel := by
    unfold finishMerge
    rw [hmerge2, hmerge, heb2, heb3, hed2, hed3]
  have hms2 : merge_session ⟨a.cols, rows2⟩ ⟨g.cols, grows2⟩
      = finishMerge cts aSel2 gSel2 := by
    unfold merge_session
    rw [hp2]
  rw [hms2, hfin2, hfm] at hm2
  have hdf2 : df2 = ⟨outColsOf cts, rs⟩ := by
    injection hm2 with h
    exact h.symm
  refine ⟨?_, ?_, ?_⟩
  · rw [hdf]
    exact hkeys2
  · rw [hdf]
    exact hlen
  · rw [hdf, hdf2]

theorem C1_witness :
    (⟨OUTPUT_COLS,
        [[Value.num 2, Value.num 20, Value.num 21, Value.num 22,
          Value.num 40, Value.num 41, Value.num 42],
         [Value.num 3, Value.num 30, Value.num 31, Value.num 32,
          Value.num 50, Value.num 51, Value.num 52]]⟩ : DataFrame).rows.map rowKey
        = [Value.num 2, Value.num 3] ∧
      (⟨OUTPUT_COLS,
        [[Value.num 2, Value.num 20, Value.num 21, Value.num 22,
          Value.num 40, Value.num 41, Value.num 42],
         [Value.num 3, Value.num 30, Value.num 31, Value.num 32,
          Value.num 50, Value.num 51, Value.num 52]]⟩ : DataFrame).rows.length = 2 ∧
      (⟨OUTPUT_COLS,
        [[Value.num 2, Value.num 20, Value.num 21, Value.num 22,
          Value.num 40, Value.num 41, Value.num 42],
         [Value.num 3, Value.num 30, Value.num 31, Value.num 32,
          Value.num 50, Value.num 51, Value.num 52]]⟩ : DataFrame)
        = ⟨OUTPUT_COLS,
        [[Value.num 2, Value.num 20, Value.num 21, Value.num 22,
          Value.num 40, Value.num 41, Value.num 42],
         [Value.num 3, Value.num 30, Value.num 31, Value.num 32,
          Value.num 50, Value.num 51, Value.num 52]]⟩ :=
  C1_inner_join_123_234
    ⟨["timestamp", "x", "y", "z"],
      [[.num 1, .num 10, .num 11, .num 12], [.num 2, .num 20, .num 21, .num 22],
       [.num 3, .num 30, .num 31, .num 32]]⟩
    ⟨["timestamp", "x", "y", "z"],
      [[.num 2, .num 40, .num 41, .num 42], [.num 3, .num 50, .num 51, .num 52],
       [.num 4, .num 60, .num 61, .num 62]]⟩
    "timestamp"
    [[.num 1, .num 10, .num 11, .num 12], [.num 2, .num 20, .num 21, .num 22],
     [.num 3, .num 30, .num 31, .num 32]]
    [[.num 2, .num 40, .num 41, .num 42], [.num 3, .num 50, .num 51, .num 52],
     [.num 4, .num 60, .num 61, .num 62]]
    ⟨OUTPUT_COLS,
      [[Value.num 2, Value.num 20, Value.num 21, Value.num 22,
        Value.num 40, Value.num 41, Value.num 42],
       [Value.num 3, Value.num 30, Value.num 31, Value.num 32,
        Value.num 50, Value.num 51, Value.num 52]]⟩
    [[.num 3, .num 30, .num 31, .num 32], [.num 1, .num 10, .num 11, .num 12],
     [.num 2, .num 20, .num 21, .num 22]]
    [[.num 4, .num 60, .num 61, .num 62], [.num 2, .num 40, .num 41, .num 42],
     [.num 3, .num 50, .num 51, .num 52]]
    ⟨OUTPUT_COLS,
      [[Value.num 2, Value.num 20, Value.num 21, Value.num 22,
        Value.num 40, Value.num 41, Value.num 42],
       [Value.num 3, Value.num 30, Value.num 31, Value.num 32,
        Value.num 50, Value.num 51, Value.num 52]]⟩
    (by decide) (by decide) (by decide) (by decide) (by decide) (by decide) (by decide)

theorem C2_witness :
    rowKey [Value.num 1, Value.num 1, Value.num 1, Value.num 1,
      Value.num 2, Value.num 2, Value.num 2] ≠ Value.null :=
  C2_no_null_key_without_partner
    ⟨["timestamp", "x", "y", "z"], [[.num 1, .num 1, .num 1, .num 1]]⟩
    ⟨["timestamp", "x", "y", "z"], [[.num 1, .num 2, .num 2, .num 2]]⟩
    "timestamp"
    [[.num 1, .num 1, .num 1, .num 1]] [[.num 1, .num 2, .num 2, .num 2]]
    ⟨OUTPUT_COLS,
      [[.num 1, .num 1, .num 1, .num 1, .num 2, .num 2, .num 2]]⟩
    (by decide) (by decide) (by decide)
    [Value.num 1, Value.num 1, Value.num 1, Value.num 1,
      Value.num 2, Value.num 2, Value.num 2]
    (by decide)

/-! ## Sanitization: character-level lemmas -/

theorem toNat_ofNat_valid {n : Nat} (h : n.isValidChar) : (Char.ofNat n).toNat = n := by
  unfold Char.ofNat
  rw [dif_pos h]
  rfl

theorem lowerChar_toNat (c : Char) :
    (lowerChar c).toNat =
      if 65 ≤ c.toNat ∧ c.toNat ≤ 90 then c.toNat + 32 else c.toNat := by
  unfold lowerChar
  by_cases h : 65 ≤ c.toNat ∧ c.toNat ≤ 90
  · rw [if_pos h, if_pos h, toNat_ofNat_valid (Or.inl (by omega))]
  · rw [if_neg h, if_neg h]

theorem isWsChar_lowerChar (c : Char) : isWsChar (lowerChar c) = isWsChar c := by
  unfold isWsChar
  rw [lowerChar_toNat]
  by_cases h : 65 ≤ c.toNat ∧ c.toNat ≤ 90
  · rw [if_pos h, decide_eq_decide]
    omega
  · rw [if_neg h]

theorem ws_not_safe {c : Char} (h : isWsChar c = true) : isSafeChar c = false := by
  unfold isWsChar at h
  unfold isSafeChar
  have := of_decide_eq_true h
  rw [decide_eq_false_iff_not]
  omega

theorem safe_not_ws {c : Char} (h : isSafeChar c = true) : isWsChar c = false := by
  unfold isSafeChar at h
  unfold isWsChar
  have := of_decide_eq_true h
  rw [decide_eq_false_iff_not]
  omega

theorem lowerChar_safe_fix {c : Char} (h : isSafeChar c = true) : lowerChar c = c := by
  unfold isSafeChar at h
  have := of_decide_eq_true h
  unfold lowerChar
  rw [if_neg (by omega)]

theorem map_dropWhile_comm {p : Char → Bool} {f : Char → Char}
    (hf : ∀ c, p (f c) = p c) (cs : List Char) :
    (cs.dropWhile p).map f = (cs.map f).dropWhile p := by
  induction cs with
  | nil => rfl
  | cons c t ih =>
    by_cases h : p c
    · rw [List.dropWhile_cons_of_pos h, List.map_cons,
        List.dropWhile_cons_of_pos (by rw [hf]; exact h), ih]
    · rw [List.dropWhile_cons_of_neg h, List.map_cons,
        List.dropWhile_cons_of_neg (by rw [hf]; exact h)]

theorem map_dropTrailIf_comm {p : Char → Bool} {f : Char → Char}
    (hf : ∀ c, p (f c) = p c) (cs : List Char) :
    (dropTrailIf p cs).map f = dropTrailIf p (cs.map f) := by
  induction cs with
  | nil => rfl
  | cons c t ih =>
    rw [dropTrailIf, List.map_cons, dropTrailIf]
    cases ht : dropTrailIf p t with
    | nil =>
      rw [ht] at ih
      rw [← ih]
      by_cases h : p c
      · rw [if_pos h, if_pos (by rw [hf]; exact h)]
        rfl
      · rw [if_neg h, if_neg (by rw [hf]; exact h)]
        rfl
    | cons d u =>
      rw [ht] at ih
      rw [← ih]
      rfl

theorem stripWs_map_lower (cs : List Char) :
    (stripWs cs).map lowerChar = stripWs (cs.map lowerChar) := by
  unfold stripWs
  rw [map_dropTrailIf_comm isWsChar_lowerChar, map_dropWhile_comm isWsChar_lowerChar]

/-! ## Sanitization: run-replacement and collapse lemmas -/

theorem replaceRuns_cons_notSafe {c : Char} (cs : List Char) (hc : isSafeChar c = false) :
    replaceRuns (c :: cs) =
      if headUnsafe cs then replaceRuns cs else '_' :: replaceRuns cs := by
  cases cs with
  | nil => simp [replaceRuns, headUnsafe, hc]
  | cons d t =>
    by_cases hd : isSafeChar d <;> simp [replaceRuns, headUnsafe, hc, hd]

theorem replaceRuns_cons_cons (a b : Char) (u : List Char) :
    replaceRuns (a :: b :: u) =
      if isSafeChar a then a :: replaceRuns (b :: u)
      else if isSafeChar b then '_' :: replaceRuns (b :: u)
      else replaceRuns (b :: u) := rfl

theorem replaceRuns_append_notSafe {c : Char} (cs : List Char) (hc : isSafeChar c = false) :
    replaceRuns (cs ++ [c]) =
      if endsUnsafe cs then replaceRuns cs else replaceRuns cs ++ ['_'] := by
  induction cs with
  | nil => simp [replaceRuns, endsUnsafe, hc]
  | cons a t ih =>
    cases t with
    | nil => by_cases ha : isSafeChar a <;> simp [replaceRuns, endsUnsafe, hc, ha]
    | cons b u =>
      simp only [List.cons_append]
      simp only [List.cons_append] at ih
      rw [replaceRuns_cons_cons, replaceRuns_cons_cons, ih,
        show endsUnsafe (a :: b :: u) = endsUnsafe (b :: u) from rfl]
      by_cases ha : isSafeChar a <;> by_cases hb : isSafeChar b <;>
        by_cases he : endsUnsafe (b :: u) <;> simp [ha, hb, he]

theorem stripUnd_collapse_cons_und (xs : List Char) :
    stripUnd (collapseUnd ('_' :: xs)) = stripUnd (collapseUnd xs) := by
  cases xs with
  | nil => rfl
  | cons y ys =>
    by_cases hy : y = '_'
    · subst hy
      rw [show collapseUnd ('_' :: '_' :: ys) = collapseUnd ('_' :: ys) from by
        simp [collapseUnd]]
    · rw [show collapseUnd ('_' :: y :: ys) = '_' :: collapseUnd (y :: ys) from by
        simp [collapseUnd, hy]]
      unfold stripUnd
      rw [List.dropWhile_cons_of_pos (by simp)]

theorem collapseUnd_cons_cons (a b : Char) (u : List Char) :
    collapseUnd (a :: b :: u) =
      if a = '_' ∧ b = '_' then collapseUnd (b :: u) else a :: collapseUnd (b :: u) := rfl

theorem collapseUnd_append_und (xs : List Char) :
    collapseUnd (xs ++ ['_']) =
      if endsUnd xs then collapseUnd xs else collapseUnd xs ++ ['_'] := by
  induction xs with
  | nil => simp [collapseUnd, endsUnd]
  | cons a t ih =>
    cases t with
    | nil => by_cases ha : a = '_' <;> simp [collapseUnd, endsUnd, ha]
    | cons b u =>
      simp only [List.cons_append]
      simp only [List.cons_append] at ih
      rw [collapseUnd_cons_cons, collapseUnd_cons_cons, ih,
        show endsUnd (a :: b :: u) = endsUnd (b :: u) from rfl]
      by_cases hab : a = '_' ∧ b = '_' <;> by_cases he : endsUnd (b :: u) <;>
        simp [hab, he]

theorem dropWhile_append_single (p : Char → Bool) (w : List Char) (c : Char) :
    (w ++ [c]).dropWhile p =
      if (w.dropWhile p).isEmpty then [c].dropWhile p else w.dropWhile p ++ [c] := by
  induction w with
  | nil => simp
  | cons d t ih =>
    by_cases hd : p d
    · rw [List.cons_append, List.dropWhile_cons_of_pos hd, List.dropWhile_cons_of_pos hd, ih]
    · rw [List.cons_append, List.dropWhile_cons_of_neg hd, List.dropWhile_cons_of_neg hd]
      simp

theorem dropTrailIf_append_sat {p : Char → Bool} {c : Char} (hc : p c = true) (v : List Char) :
    dropTrailIf p (v ++ [c]) = dropTrailIf p v := by
  induction v with
  | nil => simp [dropTrailIf, hc]
  | cons d t ih => simp only [List.cons_append, dropTrailIf, List.append_eq, ih]

theorem stripUnd_append_und (w : List Char) : stripUnd (w ++ ['_']) = stripUnd w := by
  unfold stripUnd
  rw [dropWhile_append_single]
  by_cases hw : (w.dropWhile (fun c => decide (c = '_'))).isEmpty
  · rw [if_pos hw, List.isEmpty_iff.mp hw]
    rfl
  · rw [if_neg hw, dropTrailIf_append_sat (by simp)]

theorem stripUnd_collapse_append_und (xs : List Char) :
    stripUnd (collapseUnd (xs ++ ['_'])) = stripUnd (collapseUnd xs) := by
  rw [collapseUnd_append_und]
  by_cases he : endsUnd xs
  · rw [if_pos he]
  · rw [if_neg he, stripUnd_append_und]

/-! ## Sanitization: whitespace stripping does not change the result -/

theorem pipe_cons_ws {c : Char} (cs : List Char) (hc : isWsChar c = true) :
    stripUnd (collapseUnd (replaceRuns (c :: cs))) =
      stripUnd (collapseUnd (replaceRuns cs)) := by
  rw [replaceRuns_cons_notSafe cs (ws_not_safe hc)]
  by_cases hh : headUnsafe cs
  · rw [if_pos hh]
  · rw [if_neg hh, stripUnd_collapse_cons_und]

theorem pipe_dropWhile_ws (cs : List Char) :
    stripUnd (collapseUnd (replaceRuns (cs.dropWhile isWsChar))) =
      stripUnd (collapseUnd (replaceRuns cs)) := by
  induction cs with
  | nil => rfl
  | cons c t ih =>
    by_cases h : isWsChar c
    · rw [List.dropWhile_cons_of_pos h, ih, pipe_cons_ws t h]
    · rw [List.dropWhile_cons_of_neg h]

theorem pipe_append_ws {c : Char} (cs : List Char) (hc : isWsChar c = true) :
    stripUnd (collapseUnd (replaceRuns (cs ++ [c]))) =
      stripUnd (collapseUnd (replaceRuns cs)) := by
  rw [replaceRuns_append_notSafe cs (ws_not_safe hc)]
  by_cases he : endsUnsafe cs
  · rw [if_pos he]
  · rw [if_neg he, stripUnd_collapse_append_und]

theorem dropTrailIf_decomp (p : Char → Bool) (cs : List Char) :
    ∃ suf, cs = dropTrailIf p cs ++ suf ∧ ∀ c ∈ suf, p c = true := by
  induction cs with
  | nil => exact ⟨[], rfl, by simp⟩
  | cons d t ih =>
    rcases ih with ⟨suf, hdec, hall⟩
    rw [dropTrailIf]
    cases ht : dropTrailIf p t with
    | nil =>
      rw [ht, List.nil_append] at hdec
      by_cases hd : p d
      · rw [if_pos hd]
        refine ⟨d :: t, by simp, ?_⟩
        intro c hcmem
        rcases List.mem_cons.mp hcmem with h1 | h1
        · rw [h1]
          exact hd
        · exact hall c (hdec ▸ h1)
      · rw [if_neg hd]
        exact ⟨t, by rw [List.singleton_append], fun c hcm => hall c (hdec ▸ hcm)⟩
    | cons e u =>
      rw [ht] at hdec
      exact ⟨suf, by rw [List.cons_append, ← hdec], hall⟩

theorem pipe_append_ws_list (pre suf : List Char)
    (hall : ∀ c ∈ suf, isWsChar c = true) :
    stripUnd (collapseUnd (replaceRuns (pre ++ suf))) =
      stripUnd (collapseUnd (replaceRuns pre)) := by
  induction suf using List.reverseRecOn generalizing pre with
  | nil => simp
  | append_singleton t c ih =>
    rw [show pre ++ (t ++ [c]) = (pre ++ t) ++ [c] from (List.append_assoc ..).symm,
      pipe_append_ws _ (hall c (by simp))]
    exact ih pre (fun d hd => hall d (by simp [hd]))

theorem pipe_dropTrailIf_ws (cs : List Char) :
    stripUnd (collapseUnd (replaceRuns (dropTrailIf isWsChar cs))) =
      stripUnd (collapseUnd (replaceRuns cs)) := by
  rcases dropTrailIf_decomp isWsChar cs with ⟨suf, hdec, hall⟩
  conv_rhs => rw [hdec]
  rw [pipe_append_ws_list _ _ hall]

theorem pipe_stripWs (cs : List Char) :
    stripUnd (collapseUnd (replaceRuns (stripWs cs))) =
      stripUnd (collapseUnd (replaceRuns cs)) := by
  unfold stripWs
  rw [pipe_dropTrailIf_ws, pipe_dropWhile_ws]

/-! ## C7: the sanitizer implements the specification recipe -/

/-- `sanitize_name` equals the specification recipe on every input:
lowercase, replace each maximal run outside `[a-z0-9_-]` with one
underscore, collapse underscore runs, strip boundary underscores; the
empty string maps to itself.  The second conjunct checks the
specification example (space, capital O, apostrophe, Mar, two spaces,
Jumps, two exclamation marks, space), which sanitizes to
`"o_mar_jumps"`. -/
theorem C7_sanitize_name_implements_spec :
    (∀ s : String, sanitize_name s = sanitizeSpec s) ∧
      sanitize_name ⟨[' ', 'O', '\'', 'M', 'a', 'r', ' ', ' ',
        'J', 'u', 'm', 'p', 's', '!', '!', ' ']⟩ = "o_mar_jumps" := by
  refine ⟨fun s => ?_, by decide⟩
  unfold sanitize_name sanitizeSpec
  by_cases h : s.data.isEmpty
  · rw [if_pos h, List.isEmpty_iff.mp h]
    rfl
  · rw [if_neg h]
    exact congrArg (fun l => (⟨l⟩ : String)) (by
      rw [stripWs_map_lower]
      exact pipe_stripWs (s.data.map lowerChar))

/-! ## C9: sanitization is idempotent -/

theorem mem_replaceRuns_safe {d : Char} {cs : List Char} (h : d ∈ replaceRuns cs) :
    isSafeChar d = true := by
  induction cs with
  | nil => cases h
  | cons a t ih =>
    cases t with
    | nil =>
      by_cases ha : isSafeChar a
      · rw [show replaceRuns [a] = [a] from by simp [replaceRuns, ha]] at h
        rw [List.mem_singleton.mp h]
        exact ha
      · rw [show replaceRuns [a] = ['_'] from by simp [replaceRuns, ha]] at h
        rw [List.mem_singleton.mp h]
        decide
    | cons b u =>
      rw [replaceRuns_cons_cons] at h
      by_cases ha : isSafeChar a
      · rw [if_pos ha] at h
        rcases List.mem_cons.mp h with h1 | h1
        · rw [h1]
          exact ha
        · exact ih h1
      · rw [if_neg ha] at h
        by_cases hb : isSafeChar b
        · rw [if_pos hb] at h
          rcases List.mem_cons.mp h with h1 | h1
          · rw [h1]
            decide
          · exact ih h1
        · rw [if_neg hb] at h
          exact ih h

theorem mem_collapseUnd_sub {d : Char} {xs : List Char} (h : d ∈ collapseUnd xs) :
    d ∈ xs := by
  induction xs with
  | nil => cases h
  | cons a t ih =>
    cases t with
    | nil => exact h
    | cons b u =>
      rw [collapseUnd_cons_cons] at h
      by_cases hab : a = '_' ∧ b = '_'
      · rw [if_pos hab] at h
        exact List.mem_cons_of_mem a (ih h)
      · rw [if_neg hab] at h
        rcases List.mem_cons.mp h with h1 | h1
        · rw [h1]
          simp
        · exact List.mem_cons_of_mem a (ih h1)

theorem mem_dropTrailIf_sub {p : Char → Bool} {d : Char} {xs : List Char}
    (h : d ∈ dropTrailIf p xs) : d ∈ xs := by
  rcases dropTrailIf_decomp p xs with ⟨suf, hdec, _⟩
  rw [hdec]
  exact List.mem_append_left _ h

theorem collapseUnd_head (b : Char) (u : List Char) :
    (collapseUnd (b :: u)).head? = some b := by
  induction u generalizing b with
  | nil => rfl
  | cons e v ih =>
    rw [collapseUnd_cons_cons]
    by_cases hbe : b = '_' ∧ e = '_'
    · rw [if_pos hbe, ih e, hbe.1, hbe.2]
    · rw [if_neg hbe]
      rfl

theorem chain_collapseUnd (xs : List Char) :
    List.Chain' (fun a b => ¬(a = '_' ∧ b = '_')) (collapseUnd xs) := by
  induction xs with
  | nil => simp [collapseUnd]
  | cons a t ih =>
    cases t with
    | nil => simp [collapseUnd]
    | cons b u =>
      rw [collapseUnd_cons_cons]
      by_cases hab : a = '_' ∧ b = '_'
      · rw [if_pos hab]
        exact ih
      · rw [if_neg hab]
        rw [List.chain'_cons']
        refine ⟨?_, ih⟩
        intro y hy
        rw [collapseUnd_head b u] at hy
        rw [show y = b from by simpa using hy.symm]
        exact hab

theorem collapseUnd_eq_self {xs : List Char}
    (h : List.Chain' (fun a b => ¬(a = '_' ∧ b = '_')) xs) : collapseUnd xs = xs := by
  induction xs with
  | nil => rfl
  | cons a t ih =>
    cases t with
    | nil => rfl
    | cons b u =>
      rcases List.chain'_cons.mp h with ⟨hab, htail⟩
      rw [collapseUnd_cons_cons, if_neg hab, ih htail]

theorem dropTrailIf_eq_self {p : Char → Bool} {xs : List Char}
    (h : ∀ c ∈ xs, p c = false) : dropTrailIf p xs = xs := by
  induction xs with
  | nil => rfl
  | cons d t ih =>
    rw [dropTrailIf, ih (fun c hc => h c (List.mem_cons_of_mem d hc))]
    cases t with
    | nil => simp [h d (by simp)]
    | cons e t2 => rfl

theorem dropTrailIf_idem (p : Char → Bool) (w : List Char) :
    dropTrailIf p (dropTrailIf p w) = dropTrailIf p w := by
  induction w with
  | nil => rfl
  | cons d t ih =>
    rw [dropTrailIf]
    cases ht : dropTrailIf p t with
    | nil =>
      by_cases hd : p d
      · rw [if_pos hd]
        rfl
      · rw [if_neg hd]
        simp [dropTrailIf, hd]
    | cons e u =>
      rw [ht] at ih
      rw [dropTrailIf, ih]

theorem dropTrailIf_head {p : Char → Bool} {v : List Char} {c : Char}
    (h : (dropTrailIf p v).head? = some c) : v.head? = some c := by
  cases v with
  | nil => cases h
  | cons d t =>
    rw [dropTrailIf] at h
    cases ht : dropTrailIf p t with
    | nil =>
      rw [ht] at h
      by_cases hd : p d
      · rw [if_pos hd] at h
        cases h
      · rw [if_neg hd] at h
        exact h
    | cons e u =>
      rw [ht] at h
      exact h

theorem replaceRuns_all_safe {cs : List Char} (h : ∀ c ∈ cs, isSafeChar c = true) :
    replaceRuns cs = cs := by
  induction cs with
  | nil => rfl
  | cons a t ih =>
    cases t with
    | nil => simp [replaceRuns, h a (by simp)]
    | cons b u =>
      rw [replaceRuns_cons_cons, if_pos (h a (by simp)),
        ih (fun c hc => h c (List.mem_cons_of_mem a hc))]

/-- A list of safe characters in canonical shape (no adjacent
underscores, no boundary underscore, nothing to strip) is a fixed
point of the sanitizer. -/
theorem sanitize_fixed {u : List Char}
    (hsafe : ∀ c ∈ u, isSafeChar c = true)
    (hchain : List.Chain' (fun a b => ¬(a = '_' ∧ b = '_')) u)
    (hhead : ∀ c, u.head? = some c → ¬c = '_')
    (htrail : dropTrailIf (fun c => decide (c = '_')) u = u) :
    sanitize_name ⟨u⟩ = ⟨u⟩ := by
  cases u with
  | nil => rfl
  | cons c0 t =>
    unfold sanitize_name
    rw [if_neg (by simp)]
    have hnws : ∀ c ∈ c0 :: t, isWsChar c = false :=
      fun c hc => safe_not_ws (hsafe c hc)
    have hs1 : stripWs (c0 :: t) = c0 :: t := by
      unfold stripWs
      rw [List.dropWhile_cons_of_neg (by simp [hnws c0 (by simp)])]
      exact dropTrailIf_eq_self hnws
    rw [hs1]
    have hs2 : (c0 :: t).map lowerChar = c0 :: t :=
      ((List.map_congr_left fun c hc => lowerChar_safe_fix (hsafe c hc)).trans
        (List.map_id _))
    rw [hs2, replaceRuns_all_safe hsafe, collapseUnd_eq_self hchain]
    unfold stripUnd
    rw [List.dropWhile_cons_of_neg (by simp [hhead c0 rfl]), htrail]

/-- `sanitize_name` is idempotent: sanitizing an already-sanitized
name changes nothing, because every output consists of `[a-z0-9_-]`
characters with no doubled underscore and no boundary underscore. -/
theorem C9_sanitize_name_idempotent :
    ∀ s : String, sanitize_name (sanitize_name s) = sanitize_name s := by
  intro s
  by_cases h : s.data.isEmpty
  · rw [show sanitize_name s = "" from by unfold sanitize_name; rw [if_pos h]]
    rfl
  · have ht : sanitize_name s =
        ⟨stripUnd (collapseUnd (replaceRuns ((stripWs s.data).map lowerChar)))⟩ := by
      unfold sanitize_name
      rw [if_neg h]
    rw [ht]
    apply sanitize_fixed
    · intro c hc
      exact mem_replaceRuns_safe
        (mem_collapseUnd_sub
          (List.dropWhile_subset _ (mem_dropTrailIf_sub hc)))
    · exact List.Chain'.prefix
        ((chain_collapseUnd _).suffix (List.dropWhile_suffix _))
        (by rcases dropTrailIf_decomp (fun c => decide (c = '_'))
              ((collapseUnd (replaceRuns ((stripWs s.data).map lowerChar))).dropWhile
                (fun c => decide (c = '_'))) with ⟨suf, hdec, _⟩
            exact ⟨suf, hdec.symm⟩)
    · intro c hc
      have h1 : ((collapseUnd (replaceRuns ((stripWs s.data).map lowerChar))).dropWhile
          (fun c => decide (c = '_'))).head? = some c := dropTrailIf_head hc
      have h2 := List.head?_dropWhile_not (fun c => decide (c = '_'))
        (collapseUnd (replaceRuns ((stripWs s.data).map lowerChar)))
      rw [h1] at h2
      simpa using h2
    · exact dropTrailIf_idem _ _

end SensorData
